import Mathlib

/-!
Shallow embedding of the speech-to-text job tracker and result formatter
(Go package `stt`): the duration/timecode formatter, the transcript reflow
engine (plain text and SRT cue list), the ingest coordinator and the result
harvester, together with theorems settling the specification claims.

Conventions of the embedding:
- Go `time.Duration` (an `int64` nanosecond count) is modelled as `Int`.
- Go `int32`/`int64` arithmetic is modelled on `Int` with Go's truncated
  division/remainder (`Int.tdiv` / `Int.tmod`); a Go integer division or
  remainder by zero panics, so code paths that may divide by zero return
  `Option` values, `none` standing for the panic.
- Go strings are Lean `String`s; Go `len` on a string counts UTF-8 bytes and
  is modelled by `goLen`.
- Fields accessed as `xs[0]` on a possibly-empty Go slice (a runtime panic)
  are modelled with `List.head?` threaded through `Option`.
-/

namespace STT

/-- const CharsPerLine = 42 (Netflix-recommended characters per subtitle line). -/
def CharsPerLine : Nat := 42

/-- const DefaultFPS = 25, used when no FPS info is provided. -/
def DefaultFPS : Int := 25

/-- Status constant "processing". -/
def StatusProcessing : String := "processing"

/-- Status constant "error". -/
def StatusError : String := "error"

/-- Status constant "completed". -/
def StatusCompleted : String := "completed"

/-- Byte length of a character list under UTF-8, mirroring Go's `len(string)`. -/
def utf8Len : List Char → Nat
  | [] => 0
  | c :: cs => c.utf8Size + utf8Len cs

/-- Go `len(s)` for a string: number of UTF-8 bytes. -/
def goLen (s : String) : Nat := utf8Len s.data

/-- Character class of Go's `unicode.IsSpace` (the Unicode White_Space
property): ASCII whitespace, NEL, NBSP, OGHAM SPACE MARK, the
EN QUAD .. HAIR SPACE range, LINE and PARAGRAPH SEPARATOR, NARROW NBSP,
MEDIUM MATHEMATICAL SPACE and IDEOGRAPHIC SPACE. -/
def isGoSpace (c : Char) : Bool :=
  c == ' ' || c == '\t' || c == '\n' || c == '\x0b' || c == '\x0c' || c == '\r' ||
  c == '\u0085' || c == '\u00A0' || c == '\u1680' ||
  ('\u2000' ≤ c && c ≤ '\u200A') ||
  c == '\u2028' || c == '\u2029' || c == '\u202F' || c == '\u205F' || c == '\u3000'

/-- Go `strings.TrimSpace`: drop leading and trailing white space. -/
def trimSpace (s : String) : String :=
  String.mk (((s.data.dropWhile isGoSpace).reverse.dropWhile isGoSpace).reverse)

/-- Erase every white-space character of a string (used to state the
reflow reconstruction properties "ignoring inserted whitespace"). -/
def stripSpace (s : String) : String :=
  String.mk (s.data.filter (fun c => !isGoSpace c))

/-- Go `d.Milliseconds()` for a `time.Duration`: `int64(d) / 1e6`. -/
def durationMilliseconds (ns : Int) : Int := Int.tdiv ns 1000000

/-- Embedding of `durationToFrameNumber(d, fps)`.

Source: validates with `if fps == 0 || fps > 1001 { fps = DefaultFPS }` (note
the `> 1001`, not `> 1000`, of the source), then computes
`milisPerFrame := 1000 / int64(fps)` and returns
`d.Milliseconds() / milisPerFrame`.  When `milisPerFrame` is `0` (for example
for `fps = 1001`, which passes the validation) the Go division panics; the
panic is modelled as `none`. -/
def durationToFrameNumber (ns : Int) (fps : Int) : Option Int :=
  let fps' := if fps = 0 ∨ fps > 1001 then DefaultFPS else fps
  let milisPerFrame := Int.tdiv 1000 fps'
  if milisPerFrame = 0 then none
  else some (Int.tdiv (durationMilliseconds ns) milisPerFrame)

/-- The hours field of `fmtDuration`: Go formats `d.Hours()` (a `float64`)
with verb `%02.f`, i.e. rounded to the nearest integer, ties to even.
Modelled exactly on the rational value `ns / 3.6e12`; the `float64` rounding
error of `d.Hours()` (at most a few units in the 16th significant digit) is
far too small to move any value of interest across a rounding boundary. -/
def hoursField (ns : Int) : Int :=
  let nsPerHour : Int := 3600000000000
  let f := Int.fdiv ns nsPerHour
  let r := ns - f * nsPerHour
  if 2 * r > nsPerHour then f + 1
  else if 2 * r < nsPerHour then f
  else if Int.emod f 2 = 0 then f else f + 1

/-- The minutes field: `int64(d.Minutes()) % 60` (float-to-int conversion
truncates toward zero, i.e. `Int.tdiv` on the nanosecond count). -/
def minutesField (ns : Int) : Int := Int.tmod (Int.tdiv ns 60000000000) 60

/-- The seconds field: `int64(d.Seconds()) % 60`. -/
def secondsField (ns : Int) : Int := Int.tmod (Int.tdiv ns 1000000000) 60

/-- Go's `%02d` (and `%02.f` after rounding): minimum width 2, zero padded,
the padding inserted after the sign. -/
def pad2 (n : Int) : String :=
  let mag := toString n.natAbs
  if n < 0 then "-" ++ mag
  else if mag.length ≥ 2 then mag else "0" ++ mag

/-- Embedding of `fmtDuration(d, fps)`:

`fmt.Sprintf("%02.f:%02d:%02d:%02d", d.Hours(), int64(d.Minutes())%60,
int64(d.Seconds())%60, durationToFrameNumber(d, fps)%int64(fps))`.

The remainder `% int64(fps)` is taken with the raw argument `fps`, not the
validated value used inside `durationToFrameNumber`; for `fps == 0` the Go
remainder panics (`none`). -/
def fmtDuration (ns : Int) (fps : Int) : Option String :=
  match durationToFrameNumber ns fps with
  | none => none
  | some frames =>
    if fps = 0 then none
    else some (pad2 (hoursField ns) ++ ":" ++ pad2 (minutesField ns) ++ ":" ++
               pad2 (secondsField ns) ++ ":" ++ pad2 (Int.tmod frames fps))

/-- A word with its time offsets (`speechpb.WordInfo`; the `StartTime` and
`EndTime` durations in nanoseconds). -/
structure WordInfo where
  word : String
  startNs : Int
  endNs : Int
deriving DecidableEq, Repr

instance : Inhabited WordInfo := ⟨⟨"", 0, 0⟩⟩

/-- `speechpb.SpeechRecognitionAlternative` (the fields the code reads). -/
structure SpeechRecognitionAlternative where
  transcript : String
  words : List WordInfo
deriving DecidableEq, Repr

instance : Inhabited SpeechRecognitionAlternative := ⟨⟨"", []⟩⟩

/-- `speechpb.SpeechRecognitionResult` (the fields the code reads). -/
structure SpeechRecognitionResult where
  alternatives : List SpeechRecognitionAlternative
deriving DecidableEq, Repr

instance : Inhabited SpeechRecognitionResult := ⟨⟨[]⟩⟩

/-- Words contributed by a result: the words of its first alternative,
`[]` when the result has no alternative. -/
def firstAltWords (r : SpeechRecognitionResult) : List WordInfo :=
  match r.alternatives with
  | [] => []
  | a :: _ => a.words

/-- The word sequence of a transcription, in input order: each result
contributes the words of its first alternative. -/
def allWords : List SpeechRecognitionResult → List WordInfo
  | [] => []
  | r :: rs => firstAltWords r ++ allWords rs

/-- An `astisub.Item` as the code builds it: start, end, and a single line of
text (`stringToSubItem` stores one trimmed line item). -/
structure SubItem where
  startAt : Int
  endAt : Int
  text : String
deriving DecidableEq, Repr

instance : Inhabited SubItem := ⟨⟨0, 0, ""⟩⟩

/-- Embedding of `stringToSubItem(text, start, end)`. -/
def stringToSubItem (text : String) (startAt endAt : Int) : SubItem :=
  ⟨startAt, endAt, trimSpace text⟩

/-- The seed of a fresh plain-text line started at word `w`:
`fmt.Sprintf("%s:", fmtDuration(w.StartTime.AsDuration(), fps))` when
timestamps are enabled, `""` otherwise. -/
def ptSeed (timestamps : Bool) (fps : Int) (w : WordInfo) : Option String :=
  if timestamps then (fmtDuration w.startNs fps).map (fun t => t ++ ":")
  else some ""

/-- The inner word loop of `transcriptionToPlainText`: state is
`(lines, line)`.  For each word: if `len(line) > CharsPerLine` (the constant
42 — the locally computed extended budget is not consulted, as in the
source), flush `strings.TrimSpace(line) + "\n"` and reseed; then append
`" " + w.Word`. -/
def ptWords (timestamps : Bool) (fps : Int) :
    List WordInfo → String × String → Option (String × String)
  | [], acc => some acc
  | w :: ws, (lines, line) => do
      let acc ←
        if goLen line > CharsPerLine then do
          let seed ← ptSeed timestamps fps w
          pure (lines ++ trimSpace line ++ "\n", seed)
        else pure (lines, line)
      ptWords timestamps fps ws (acc.1, acc.2 ++ " " ++ w.word)

/-- The outer result loop of `transcriptionToPlainText`:
`alt := r.Alternatives[0]` (panic on an empty alternatives slice → `none`),
then the word loop over `alt.Words`. -/
def ptResults (timestamps : Bool) (fps : Int) :
    List SpeechRecognitionResult → String × String → Option (String × String)
  | [], acc => some acc
  | r :: rs, acc => do
      let alt ← r.alternatives.head?
      let acc ← ptWords timestamps fps alt.words acc
      ptResults timestamps fps rs acc

/-- Embedding of `transcriptionToPlainText(trans, fps, timestamps)`.

With timestamps enabled the source first computes
`charsPerLine := CharsPerLine + len(fmtDuration(1, fps))` — a value that is
never read again (the flush comparison uses the `CharsPerLine` constant) —
and seeds the first line with the timecode of
`trans[0].Alternatives[0].Words[0]` (a panic, hence `none`, when the first
result has no alternative or its first alternative has no word).  After the
loops, a final non-empty `line` is flushed. -/
def transcriptionToPlainText (trans : List SpeechRecognitionResult)
    (fps : Int) (timestamps : Bool) : Option String :=
  match trans with
  | [] => some ""
  | t0 :: _ => do
      let line0 ←
        if timestamps then do
          let tcw ← fmtDuration 1 fps
          let _charsPerLine := CharsPerLine + goLen tcw
          let a ← t0.alternatives.head?
          let w0 ← a.words.head?
          let tc ← fmtDuration w0.startNs fps
          pure (tc ++ ":")
        else pure ""
      let acc ← ptResults timestamps fps trans ("", line0)
      pure (if acc.2 ≠ "" then acc.1 ++ trimSpace acc.2 ++ "\n" else acc.1)

/-- Accumulator of `transcriptionToSrt`: emitted items, the current line,
the first word of the current line, and the `lastWord` pointer (`none`
models the initial nil pointer). -/
structure SrtAcc where
  items : List SubItem
  line : String
  firstWord : WordInfo
  lastWord : Option WordInfo
deriving DecidableEq

/-- `lastWord.GetEndTime().AsDuration()`: the protobuf getter is nil-safe
and yields the zero duration for a nil word. -/
def lastEndNs : Option WordInfo → Int
  | none => 0
  | some w => w.endNs

/-- The inner word loop of `transcriptionToSrt`: flush a cue when
`len(line) > CharsPerLine`, then append the word. -/
def srtWords : List WordInfo → SrtAcc → SrtAcc
  | [], acc => acc
  | w :: ws, acc =>
      let acc :=
        if goLen acc.line > CharsPerLine then
          { acc with
            items := acc.items ++
              [stringToSubItem acc.line acc.firstWord.startNs (lastEndNs acc.lastWord)],
            line := "",
            firstWord := w }
        else acc
      srtWords ws { acc with line := acc.line ++ " " ++ w.word, lastWord := some w }

/-- The outer result loop of `transcriptionToSrt`. -/
def srtResults : List SpeechRecognitionResult → SrtAcc → Option SrtAcc
  | [], acc => some acc
  | r :: rs, acc => do
      let alt ← r.alternatives.head?
      srtResults rs (srtWords alt.words acc)

/-- Embedding of `transcriptionToSrt(trans)`: returns the emitted cue items
(`subs.Items`).  `firstWord := trans[0].Alternatives[0].Words[0]` panics
(`none`) when the first result has no alternative or no word; the final
cue is appended unconditionally. -/
def transcriptionToSrt (trans : List SpeechRecognitionResult) :
    Option (List SubItem) :=
  match trans with
  | [] => some []
  | t0 :: _ => do
      let a ← t0.alternatives.head?
      let fw ← a.words.head?
      let acc ← srtResults trans ⟨[], "", fw, none⟩
      pure (acc.items ++
        [stringToSubItem acc.line acc.firstWord.startNs (lastEndNs acc.lastWord)])

end STT

namespace STT

/-- Go `strings.HasSuffix`. -/
def goHasSuffix (s suffix : String) : Bool := suffix.data.isSuffixOf s.data

/-- Go `strings.ToUpper`, restricted to the ASCII letters that the
encoding switch compares (Lean's `Char.toUpper` uppercases exactly
the ASCII range). -/
def goToUpper (s : String) : String := String.mk (s.data.map Char.toUpper)

/-- Go `strings.TrimPrefix(p, "/")`: remove one leading slash if present. -/
def dropLeadSlash (p : String) : String :=
  match p.data with
  | '/' :: rest => String.mk rest
  | _ => p

/-- `IngestRequest` (the submitted data). -/
structure IngestRequest where
  file : String
  lang : String
  encodingString : String
  sampleRateHertz : Int
  fps : Int
deriving DecidableEq, Repr

/-- `FileStatus`: the persisted job record (embeds the request). -/
structure FileStatus where
  request : IngestRequest
  jobID : String
  status : String
  error : String
  sourceFile : String
  txtFile : String
  jsonFile : String
deriving DecidableEq, Repr

/-- `speechpb.RecognitionConfig_AudioEncoding` values the code mentions. -/
inductive AudioEncoding where
  | encodingUnspecified
  | linear16
  | flac
  | oggOpus
deriving DecidableEq, Repr

/-- Embedding of the method `(r IngestRequest) Encoding()`: a switch on
`strings.ToUpper(r.EncodingString)` with default `ENCODING_UNSPECIFIED`. -/
def IngestRequest.Encoding (r : IngestRequest) : AudioEncoding :=
  match goToUpper r.encodingString with
  | "PCM" => AudioEncoding.linear16
  | "OPUS" => AudioEncoding.oggOpus
  | "FLAC" => AudioEncoding.flac
  | _ => AudioEncoding.encodingUnspecified

/-- Outcome of `statusFile.Attrs(ctx)` in `Ingest`: the object exists
(`err == nil`), does not exist (`err == storage.ErrObjectNotExist`), or the
lookup failed with some other error. -/
inductive AttrsOutcome where
  | objectExists
  | objectNotExist
  | otherError
deriving DecidableEq, Repr

/-- Outcome of `client.LongRunningRecognize`, classified as the code
classifies it: accepted (with the operation name), a gRPC status with code
`NotFound` or `InvalidArgument`, some other gRPC status, or an error that
carries no gRPC status. -/
inductive SubmitOutcome where
  | accepted (opName : String)
  | errNotFound
  | errInvalidArgument (msg : String)
  | errOtherStatus
  | errNonStatus
deriving DecidableEq, Repr

/-- Environment of one `Ingest` call: the request data and the outcome of
each external interaction, in program order. -/
structure IngestEnv where
  keyParam : String
  apiKey : String
  speechClientOk : Bool
  body : Option IngestRequest
  storageClientOk : Bool
  urlParse : Option (String × String)
  attrs : AttrsOutcome
  write1Ok : Bool
  submit : SubmitOutcome
  write2Ok : Bool
deriving Repr

/-- Side effects `Ingest` performs against the store and the engine
(a failed write or submission still appears: the attempt was made). -/
inductive IngestEffect where
  | writeRecord (key : String) (record : FileStatus)
  | submitJob (request : IngestRequest)
  | deleteRecord (key : String)
deriving DecidableEq, Repr

/-- The user-visible result of `Ingest` (`sendError` status codes, or a
plain 200 return). -/
inductive IngestResponse where
  | accepted
  | unauthorized
  | badRequest
  | conflict
  | internalError
  | notFound
deriving DecidableEq, Repr

/-- Embedding of `Ingest(w, r)` over an `IngestEnv`, returning the response
and the ordered list of effects.

Order of the source: key check; speech client; decode body; default the FPS
when it is `0`; storage client; parse the file URL; derive the status key
`"status" + path + ".json"`; `Attrs` existence check (any outcome other than
`ErrObjectNotExist` — including a successful lookup — is rejected with
`http.StatusConflict`); write the initial record (`status=processing`, empty
job id); submit to the engine (on a classified failure: delete the record
best-effort); rewrite the record with the returned operation name. -/
def Ingest (env : IngestEnv) : IngestResponse × List IngestEffect :=
  if env.keyParam ≠ env.apiKey then (.unauthorized, [])
  else if ¬env.speechClientOk then (.badRequest, [])
  else
    match env.body with
    | none => (.badRequest, [])
    | some reqData0 =>
      let reqData := if reqData0.fps = 0 then { reqData0 with fps := DefaultFPS } else reqData0
      if ¬env.storageClientOk then (.internalError, [])
      else
        match env.urlParse with
        | none => (.internalError, [])
        | some (_host, path) =>
          let statusKey := "status" ++ path ++ ".json"
          match env.attrs with
          | .objectExists => (.conflict, [])
          | .otherError => (.conflict, [])
          | .objectNotExist =>
            let fStatus : FileStatus :=
              { request := reqData, jobID := "", status := StatusProcessing,
                error := "", sourceFile := dropLeadSlash path, txtFile := "", jsonFile := "" }
            if ¬env.write1Ok then (.conflict, [.writeRecord statusKey fStatus])
            else
              match env.submit with
              | .accepted opName =>
                let fStatus2 := { fStatus with jobID := opName }
                ((if ¬env.write2Ok then .conflict else .accepted),
                 [.writeRecord statusKey fStatus, .submitJob reqData,
                  .writeRecord statusKey fStatus2])
              | .errNotFound =>
                (.notFound,
                 [.writeRecord statusKey fStatus, .submitJob reqData, .deleteRecord statusKey])
              | .errInvalidArgument _ =>
                (.badRequest,
                 [.writeRecord statusKey fStatus, .submitJob reqData, .deleteRecord statusKey])
              | .errOtherStatus =>
                (.internalError,
                 [.writeRecord statusKey fStatus, .submitJob reqData, .deleteRecord statusKey])
              | .errNonStatus =>
                (.internalError,
                 [.writeRecord statusKey fStatus, .submitJob reqData, .deleteRecord statusKey])

/-- The record stored by the first write of an `Ingest` call, if any. -/
def firstWrittenRecord (effects : List IngestEffect) : Option FileStatus :=
  effects.findSome? fun e =>
    match e with
    | .writeRecord _ r => some r
    | _ => none

end STT

namespace STT

/-- Result of opening, reading and JSON-decoding the status file in
`resultWorker` (each failure is logged and the worker returns). -/
inductive ReadOutcome where
  | openError
  | readError
  | parseError
  | ok (fileStatus : FileStatus)
deriving DecidableEq, Repr

/-- Outcome of `op.Poll(ctx)` together with `op.Done()` and the results. -/
inductive PollOutcome where
  | pollError (msg : String)
  | polled (done : Bool) (results : List SpeechRecognitionResult)
deriving DecidableEq, Repr

/-- Environment of one `resultWorker` invocation: the listed object name
and the outcome of each external interaction, in program order.  A `none`
error field means the corresponding write/close succeeded; `some msg` is
the error message stored into the record. -/
structure WorkerEnv where
  objectName : String
  readOutcome : ReadOutcome
  pollOutcome : PollOutcome
  txtWriteErr : Option String
  txtCloseErr : Option String
  srtWriteErr : Option String
  srtCloseErr : Option String
  vttWriteErr : Option String
  vttCloseErr : Option String
deriving Repr

/-- Side effects of `resultWorker` against the record store, the result
bucket and the source object (again, failed attempts still appear). -/
inductive WorkerEffect where
  | writeStatus (record : FileStatus)
  | writeTxt (name content : String)
  | writeSrt (name : String) (cues : List SubItem)
  | writeVtt (name : String) (cues : List SubItem)
  | deleteSource (name : String)
deriving DecidableEq, Repr

/-- Embedding of `resultWorker` (the per-record harvest worker), returning
the ordered effects of one invocation.

Source order: skip names without the `.json` suffix; open/read/decode the
status file (failures: log and return, no write); skip when
`JobID == ""` or `Status != "processing"`; poll the operation (a poll error
transitions the record to `error` and persists it); return when not done;
format the plain text (a panic inside `transcriptionToPlainText`, `none` in
the embedding, stops the worker with no further effect); write the `.txt`
artifact; build the cues (same for `transcriptionToSrt`); write `.srt` and
`.vtt`; on any write/close failure persist an `error` record and stop; on
success persist `status=completed` with the txt reference and best-effort
delete the source object. -/
def resultWorker (env : WorkerEnv) : List WorkerEffect :=
  if ¬goHasSuffix env.objectName ".json" then []
  else
    match env.readOutcome with
    | .openError => []
    | .readError => []
    | .parseError => []
    | .ok fileStatus =>
      if fileStatus.jobID = "" ∨ fileStatus.status ≠ StatusProcessing then []
      else
        match env.pollOutcome with
        | .pollError msg =>
          [.writeStatus { fileStatus with status := StatusError, error := msg }]
        | .polled done results =>
          if ¬done then []
          else
            let txtName := fileStatus.sourceFile ++ ".txt"
            match transcriptionToPlainText results fileStatus.request.fps true with
            | none => []
            | some txt =>
              match env.txtWriteErr with
              | some msg =>
                [.writeTxt txtName txt,
                 .writeStatus { fileStatus with status := StatusError, error := msg }]
              | none =>
                match env.txtCloseErr with
                | some msg =>
                  [.writeTxt txtName txt,
                   .writeStatus { fileStatus with status := StatusError, error := msg }]
                | none =>
                  let srtName := fileStatus.sourceFile ++ ".srt"
                  match transcriptionToSrt results with
                  | none => [.writeTxt txtName txt]
                  | some cues =>
                    match env.srtWriteErr with
                    | some msg =>
                      [.writeTxt txtName txt, .writeSrt srtName cues,
                       .writeStatus { fileStatus with status := StatusError, error := msg }]
                    | none =>
                      match env.srtCloseErr with
                      | some msg =>
                        [.writeTxt txtName txt, .writeSrt srtName cues,
                         .writeStatus { fileStatus with status := StatusError, error := msg }]
                      | none =>
                        let vttName := fileStatus.sourceFile ++ ".vtt"
                        match env.vttWriteErr with
                        | some msg =>
                          [.writeTxt txtName txt, .writeSrt srtName cues,
                           .writeVtt vttName cues,
                           .writeStatus { fileStatus with status := StatusError, error := msg }]
                        | none =>
                          match env.vttCloseErr with
                          | some msg =>
                            [.writeTxt txtName txt, .writeSrt srtName cues,
                             .writeVtt vttName cues,
                             .writeStatus { fileStatus with status := StatusError, error := msg }]
                          | none =>
                            [.writeTxt txtName txt, .writeSrt srtName cues,
                             .writeVtt vttName cues,
                             .writeStatus { fileStatus with
                                            status := StatusCompleted, txtFile := txtName },
                             .deleteSource fileStatus.sourceFile]

/-- One entry yielded by `objs.Next()` in the harvest listing loop: an
object name, or a listing error (logged, `continue`). -/
inductive ListEntry where
  | found (name : String)
  | listError
deriving DecidableEq, Repr

/-- Scheduling steps `ProcessResults` performs: `wg.Add(1)`, the
`go resultWorker(...)` dispatch, and `wg.Wait()` (a constructor provided so
that its absence from every trace can be stated). -/
inductive HarvestStep where
  | wgAdd
  | spawnWorker (name : String)
  | wgWait
deriving DecidableEq, Repr

/-- Environment of one `ProcessResults` call. -/
structure HarvestEnv where
  keyParam : String
  apiKey : String
  speechClientOk : Bool
  storageClientOk : Bool
  listing : List ListEntry
deriving Repr

/-- The listing loop of `ProcessResults`: for every listed object,
`wg.Add(1)` then `go resultWorker(...)`; a listing error is skipped. -/
def harvestLoop : List ListEntry → List HarvestStep
  | [] => []
  | ListEntry.found name :: rest => .wgAdd :: .spawnWorker name :: harvestLoop rest
  | ListEntry.listError :: rest => harvestLoop rest

/-- Embedding of `ProcessResults(w, r)` as the ordered scheduling steps the
call performs before it returns.  After the listing loop the function
returns directly: the `sync.WaitGroup` that every worker decrements is
never waited on. -/
def ProcessResults (env : HarvestEnv) : List HarvestStep :=
  if env.keyParam ≠ env.apiKey then []
  else if ¬env.speechClientOk then []
  else if ¬env.storageClientOk then []
  else harvestLoop env.listing

end STT

namespace STT

/-- A five-byte word at the zero offset. -/
def exWord : WordInfo := ⟨"abcde", 0, 1⟩

/-- A result with one alternative holding the given words. -/
def singleAltResult (ws : List WordInfo) : SpeechRecognitionResult := ⟨[⟨"", ws⟩]⟩

/-- Seven five-byte words in one result: with timestamps and fps 25 the
accumulating line reaches 48 bytes — above the 42-byte constant but below
the 53-byte extended budget — when the seventh word is considered. -/
def budgetInput : List SpeechRecognitionResult :=
  [singleAltResult [exWord, exWord, exWord, exWord, exWord, exWord, exWord]]

/-- A transcription whose first result has a first alternative with zero
words, followed by a result contributing the single word "hi". -/
def emptyFirstInput : List SpeechRecognitionResult :=
  [⟨[⟨"", []⟩]⟩, singleAltResult [⟨"hi", 0, 1⟩]]

/-- A terminal (completed) job record. -/
def completedRecord : FileStatus :=
  { request := { file := "gs://in/a.wav", lang := "no-NO", encodingString := "PCM",
                 sampleRateHertz := 48000, fps := 25 },
    jobID := "op-1", status := StatusCompleted, error := "",
    sourceFile := "a.wav", txtFile := "a.wav.txt", jsonFile := "" }

/-- A worker environment whose record read yields `completedRecord`. -/
def completedEnv : WorkerEnv :=
  { objectName := "status/a.wav.json", readOutcome := ReadOutcome.ok completedRecord,
    pollOutcome := PollOutcome.polled true [], txtWriteErr := none, txtCloseErr := none,
    srtWriteErr := none, srtCloseErr := none, vttWriteErr := none, vttCloseErr := none }

/-- A request for `gs://bucket/a.wav` with the given fps. -/
def exRequest (fps : Int) : IngestRequest :=
  { file := "gs://bucket/a.wav", lang := "en-US", encodingString := "FLAC",
    sampleRateHertz := 44100, fps := fps }

/-- The same request with fps 25 and the given encoding string. -/
def exRequestEnc (e : String) : IngestRequest := { exRequest 25 with encodingString := e }

/-- An ingest environment on the happy path for the given request. -/
def happyIngestEnv (req : IngestRequest) : IngestEnv :=
  { keyParam := "k", apiKey := "k", speechClientOk := true, body := some req,
    storageClientOk := true, urlParse := some ("bucket", "/a.wav"),
    attrs := AttrsOutcome.objectNotExist, write1Ok := true,
    submit := SubmitOutcome.accepted "op-1", write2Ok := true }

/-- The same environment but a record already exists at the derived key. -/
def conflictIngestEnv (req : IngestRequest) : IngestEnv :=
  { happyIngestEnv req with attrs := AttrsOutcome.objectExists }

end STT

namespace STT

/-- The fps values at which `fmtDuration` cannot panic: the raw fps is a
legal remainder divisor and the validated fps yields a non-zero
`milisPerFrame`.  The condition does not depend on the elapsed duration. -/
def fmtOk (fps : Int) : Prop :=
  fps ≠ 0 ∧ Int.tdiv 1000 (if fps = 0 ∨ fps > 1001 then DefaultFPS else fps) ≠ 0

instance instDecFmtOk (fps : Int) : Decidable (fmtOk fps) := by
  unfold fmtOk; infer_instance

/-- The string `fmtDuration` returns when it does not panic. -/
def fmtDurationTotal (ns fps : Int) : String := (fmtDuration ns fps).getD ""

/-- The seed string of a plain-text line whose first word is `w`: the
word's timecode plus `":"` with timestamps enabled, empty otherwise. -/
def ptSeedStr (timestamps : Bool) (fps : Int) (w : WordInfo) : String :=
  if timestamps then fmtDurationTotal w.startNs fps ++ ":" else ""

/-- `" w1" + " w2" + …`: the words of one line as the code accumulates
them (each word preceded by the separating space the code inserts). -/
def wordsStr : List WordInfo → String
  | [] => ""
  | w :: ws => " " ++ w.word ++ wordsStr ws

/-- The full line-buffer string of the word group `g` (`w0` is the first
word of the whole input, whose timecode seeds the first line while the
group is still empty). -/
def ptLineStr (timestamps : Bool) (fps : Int) (w0 : WordInfo) (g : List WordInfo) : String :=
  ptSeedStr timestamps fps (g.headD w0) ++ wordsStr g

/-- The word loop of the plain-text reflow with the seed evaluated: the
total function `ptWords` computes when the formatter cannot panic. -/
def ptWordsP (timestamps : Bool) (fps : Int) :
    List WordInfo → String × String → String × String
  | [], acc => acc
  | w :: ws, (lines, line) =>
      let acc :=
        if goLen line > CharsPerLine then
          (lines ++ trimSpace line ++ "
", ptSeedStr timestamps fps w)
        else (lines, line)
      ptWordsP timestamps fps ws (acc.1, acc.2 ++ " " ++ w.word)

/-- The greedy grouping of the word stream into plain-text lines: the
code's flush rule (`len(line) > CharsPerLine` checked before the word is
appended), expressed on word groups instead of strings. -/
def ptGroupWords (timestamps : Bool) (fps : Int) (w0 : WordInfo) :
    List WordInfo → List (List WordInfo) × List WordInfo →
    List (List WordInfo) × List WordInfo
  | [], acc => acc
  | w :: ws, (gs, cur) =>
      let acc :=
        if goLen (ptLineStr timestamps fps w0 cur) > CharsPerLine then (gs ++ [cur], [w])
        else (gs, cur ++ [w])
      ptGroupWords timestamps fps w0 ws acc

/-- The line groups of the emitted plain text (the last group is the one
the final flush emits). -/
def ptGroups (timestamps : Bool) (fps : Int) (trans : List SpeechRecognitionResult) :
    List (List WordInfo) :=
  let ws := allWords trans
  let acc := ptGroupWords timestamps fps (ws.headD default) ws ([], [])
  acc.1 ++ [acc.2]

/-- One rendered plain-text line: the trimmed line buffer of its group. -/
def ptRenderLine (timestamps : Bool) (fps : Int) (w0 : WordInfo) (g : List WordInfo) : String :=
  trimSpace (ptLineStr timestamps fps w0 g)

/-- Rendering of a list of line groups, each line newline-terminated. -/
def ptRenderLines (timestamps : Bool) (fps : Int) (w0 : WordInfo) :
    List (List WordInfo) → String
  | [] => ""
  | g :: gs => ptRenderLine timestamps fps w0 g ++ "
" ++ ptRenderLines timestamps fps w0 gs

/-- The emitted plain-text lines of a transcription. -/
def ptLines (timestamps : Bool) (fps : Int) (trans : List SpeechRecognitionResult) :
    List String :=
  (ptGroups timestamps fps trans).map
    (ptRenderLine timestamps fps ((allWords trans).headD default))

/-- Newline-terminated join of a list of lines. -/
def joinLines : List String → String
  | [] => ""
  | l :: ls => l ++ "
" ++ joinLines ls

/-- The greedy grouping of the word stream into subtitle cues
(`transcriptionToSrt` keeps no timecode seed in the line buffer). -/
def srtGroupWords :
    List WordInfo → List (List WordInfo) × List WordInfo →
    List (List WordInfo) × List WordInfo
  | [], acc => acc
  | w :: ws, (gs, cur) =>
      let acc :=
        if goLen (wordsStr cur) > CharsPerLine then (gs ++ [cur], [w])
        else (gs, cur ++ [w])
      srtGroupWords ws acc

/-- The cue groups of the emitted subtitle list. -/
def srtGroups (trans : List SpeechRecognitionResult) : List (List WordInfo) :=
  let acc := srtGroupWords (allWords trans) ([], [])
  acc.1 ++ [acc.2]

/-- The cue a word group renders to: start time of its first word, end
time of its last word, trimmed accumulated text. -/
def srtCueOf (w0 : WordInfo) (g : List WordInfo) : SubItem :=
  ⟨(g.headD w0).startNs, (g.getLastD w0).endNs, trimSpace (wordsStr g)⟩

/-- The filter the zero-word-skip claim compares against: keep only
results whose first alternative contributes at least one word. -/
def dropWordlessResults (trans : List SpeechRecognitionResult) :
    List SpeechRecognitionResult :=
  trans.filter (fun r => !(firstAltWords r).isEmpty)

end STT

namespace STT

/-- Claim C2: the claim states that `fmtDuration` is total and substitutes
the default 25 whenever `fps == 0` or `fps > 1000`.  The code does not: at
`fps = 0` the final `durationToFrameNumber(d, fps) % int64(fps)` takes a
remainder by the raw, unsubstituted fps and panics, and at `fps = 1001` the
validation bound `fps > 1001` lets 1001 through, `1000/1001 = 0`, and the
division `d.Milliseconds() / milisPerFrame` panics. Both panics are the
`none` results below (the elapsed time is one hour). -/
theorem fmtDuration_panics_at_fps_zero_and_1001 :
    fmtDuration 3600000000000 0 = none ∧ fmtDuration 3600000000000 1001 = none := by
  constructor <;> rfl

/-- Claim C3: the code formats the hours field with `%02.f`, which rounds
`d.Hours()` to the nearest integer, so 91 minutes (1.51… h) prints hour 02
and 31 minutes (0.51… h) prints hour 01 — not the 01 and 00 asserted by the
claim and by the repository's own `Test_fmtDuration`. -/
theorem fmtDuration_91_and_31_minutes :
    fmtDuration (1000000000 * 60 * 91) 100 = some "02:31:00:00" ∧
    fmtDuration (1000000000 * 60 * 31) 100 = some "01:31:00:00" := by
  constructor <;> rfl

/-- Claim C5: with timestamps enabled, fps 25 and seven five-byte words,
the first flushed line holds six words and 48 bytes.  48 exceeds the
42-byte constant but not the extended budget 42 + 11 = 53 that the claim
(and the source's dead local `charsPerLine`) prescribe: the flush compares
against the unextended constant, so a second line is started although the
seventh word still fit the extended budget. -/
theorem plainText_flushes_at_unextended_budget :
    transcriptionToPlainText budgetInput 25 true =
      some "00:00:00:00: abcde abcde abcde abcde abcde abcde\n00:00:00:00: abcde\n" ∧
    goLen "00:00:00:00: abcde abcde abcde abcde abcde abcde" = 48 ∧
    CharsPerLine + goLen "00:00:00:00" = 53 := by
  refine ⟨?_, ?_, ?_⟩ <;> rfl

/-- Claim C6: a harvest worker that reads a record whose status is
`completed` or `error` returns without performing any effect: terminal
records are never mutated by a later harvest pass. -/
theorem resultWorker_skips_terminal_records (env : WorkerEnv) (fs : FileStatus)
    (hread : env.readOutcome = ReadOutcome.ok fs)
    (hterm : fs.status = StatusCompleted ∨ fs.status = StatusError) :
    resultWorker env = [] := by
  have hne : fs.status ≠ StatusProcessing := by
    rcases hterm with h | h <;> rw [h] <;> decide
  simp [resultWorker, hread, hne]

/-- Witness for C6 at a concrete completed record. -/
theorem resultWorker_skips_terminal_records_witness :
    completedEnv.readOutcome = ReadOutcome.ok completedRecord ∧
    (completedRecord.status = StatusCompleted ∨ completedRecord.status = StatusError) ∧
    resultWorker completedEnv = [] :=
  ⟨rfl, Or.inl rfl,
    resultWorker_skips_terminal_records completedEnv completedRecord rfl (Or.inl rfl)⟩

/-- Claim C9: when the derived status key already holds a record (the
`Attrs` lookup succeeds), `Ingest` responds `Conflict` and performs no
effect at all: no record write, no engine submission. -/
theorem ingest_conflict_before_any_effect (env : IngestEnv) (req : IngestRequest)
    (hostPath : String × String)
    (hkey : env.keyParam = env.apiKey)
    (hspeech : env.speechClientOk = true)
    (hbody : env.body = some req)
    (hstorage : env.storageClientOk = true)
    (hurl : env.urlParse = some hostPath)
    (hexists : env.attrs = AttrsOutcome.objectExists) :
    Ingest env = (IngestResponse.conflict, []) := by
  obtain ⟨host, path⟩ := hostPath
  simp [Ingest, hkey, hspeech, hbody, hstorage, hurl, hexists]

/-- Witness for C9 at a concrete duplicate submission. -/
theorem ingest_conflict_before_any_effect_witness :
    (conflictIngestEnv (exRequest 25)).attrs = AttrsOutcome.objectExists ∧
    Ingest (conflictIngestEnv (exRequest 25)) = (IngestResponse.conflict, []) :=
  ⟨rfl,
    ingest_conflict_before_any_effect (conflictIngestEnv (exRequest 25)) (exRequest 25)
      ("bucket", "/a.wav") rfl rfl rfl rfl rfl rfl⟩

/-- Claim C8, counterexample: submitting with `fps = 1001` (outside the
claimed valid range 1–1000) stores the record with fps 1001, not the
default 25: `Ingest` only substitutes the default when the request fps is
exactly 0. -/
theorem ingest_stores_out_of_range_fps :
    (firstWrittenRecord (Ingest (happyIngestEnv (exRequest 1001))).2).map
        (fun r => r.request.fps) = some 1001 ∧
    (firstWrittenRecord (Ingest (happyIngestEnv (exRequest 1001))).2).map
        (fun r => r.request.fps) ≠ some 25 := by
  constructor <;> decide

/-- Claim C8 as amended: for every submission that reaches the record
write, the stored fps is the default 25 exactly when the request fps is 0,
and the request's fps unchanged otherwise (no range validation). -/
theorem ingest_fps_default_only_when_zero (env : IngestEnv) (req : IngestRequest)
    (hostPath : String × String)
    (hkey : env.keyParam = env.apiKey)
    (hspeech : env.speechClientOk = true)
    (hbody : env.body = some req)
    (hstorage : env.storageClientOk = true)
    (hurl : env.urlParse = some hostPath)
    (hnotexist : env.attrs = AttrsOutcome.objectNotExist) :
    (firstWrittenRecord (Ingest env).2).map (fun r => r.request.fps) =
      some (if req.fps = 0 then DefaultFPS else req.fps) := by
  obtain ⟨host, path⟩ := hostPath
  by_cases hw : env.write1Ok <;>
    cases hsub : env.submit <;>
      by_cases h0 : req.fps = 0 <;>
        simp [Ingest, firstWrittenRecord, hkey, hspeech, hbody, hstorage, hurl,
              hnotexist, hw, hsub, h0]

/-- Witness for the amended C8: `fps = 0` is stored as 25. -/
theorem ingest_fps_default_only_when_zero_witness :
    (happyIngestEnv (exRequest 0)).attrs = AttrsOutcome.objectNotExist ∧
    (firstWrittenRecord (Ingest (happyIngestEnv (exRequest 0))).2).map
        (fun r => r.request.fps) =
      some (if (exRequest 0).fps = 0 then DefaultFPS else (exRequest 0).fps) :=
  ⟨rfl,
    ingest_fps_default_only_when_zero (happyIngestEnv (exRequest 0)) (exRequest 0)
      ("bucket", "/a.wav") rfl rfl rfl rfl rfl rfl⟩

/-- Claim C10: every encoding string whose upper-casing is none of "PCM",
"OPUS", "FLAC" maps to `ENCODING_UNSPECIFIED`; matching is
case-insensitive ("pcm" ↦ LINEAR16, "opus" ↦ OGG_OPUS); and the submission
still proceeds (the engine submission effect is emitted) whatever the
encoding string is. -/
theorem encoding_unknown_is_unspecified_and_proceeds :
    (∀ r : IngestRequest,
        goToUpper r.encodingString ≠ "PCM" →
        goToUpper r.encodingString ≠ "OPUS" →
        goToUpper r.encodingString ≠ "FLAC" →
        r.Encoding = AudioEncoding.encodingUnspecified) ∧
    (exRequestEnc "pcm").Encoding = AudioEncoding.linear16 ∧
    (exRequestEnc "opus").Encoding = AudioEncoding.oggOpus ∧
    (∀ (env : IngestEnv) (req : IngestRequest) (hostPath : String × String),
        env.keyParam = env.apiKey → env.speechClientOk = true →
        env.body = some req → env.storageClientOk = true →
        env.urlParse = some hostPath → env.attrs = AttrsOutcome.objectNotExist →
        env.write1Ok = true →
        IngestEffect.submitJob (if req.fps = 0 then { req with fps := DefaultFPS } else req)
          ∈ (Ingest env).2) := by
  refine ⟨?_, rfl, rfl, ?_⟩
  · intro r h1 h2 h3
    unfold IngestRequest.Encoding
    split <;> simp_all
  · intro env req hostPath hkey hspeech hbody hstorage hurl hnotexist hw
    obtain ⟨host, path⟩ := hostPath
    cases hsub : env.submit <;>
      simp [Ingest, hkey, hspeech, hbody, hstorage, hurl, hnotexist, hw, hsub]

/-- Witness for C10: the unknown encoding "mp3" yields
`ENCODING_UNSPECIFIED` and the submission is still dispatched. -/
theorem encoding_unknown_is_unspecified_and_proceeds_witness :
    (goToUpper (exRequestEnc "mp3").encodingString ≠ "PCM" ∧
     goToUpper (exRequestEnc "mp3").encodingString ≠ "OPUS" ∧
     goToUpper (exRequestEnc "mp3").encodingString ≠ "FLAC") ∧
    (exRequestEnc "mp3").Encoding = AudioEncoding.encodingUnspecified ∧
    IngestEffect.submitJob
        (if (exRequestEnc "mp3").fps = 0 then { exRequestEnc "mp3" with fps := DefaultFPS }
         else exRequestEnc "mp3")
      ∈ (Ingest (happyIngestEnv (exRequestEnc "mp3"))).2 :=
  ⟨⟨by decide, by decide, by decide⟩,
   encoding_unknown_is_unspecified_and_proceeds.1 (exRequestEnc "mp3")
     (by decide) (by decide) (by decide),
   encoding_unknown_is_unspecified_and_proceeds.2.2.2
     (happyIngestEnv (exRequestEnc "mp3")) (exRequestEnc "mp3") ("bucket", "/a.wav")
     rfl rfl rfl rfl rfl rfl rfl⟩

/-- Claim C1: the dispatch structure of `ProcessResults`.  Per listed
record the call performs `wg.Add(1)` and dispatches a worker goroutine, but
no trace of any invocation contains the `wg.Wait()` barrier: the function
returns as soon as the listing loop ends, while dispatched workers may
still be running.  The second conjunct evaluates a harvest of one record. -/
theorem processResults_has_no_barrier :
    (∀ env : HarvestEnv, (ProcessResults env).count HarvestStep.wgWait = 0) ∧
    ProcessResults { keyParam := "k", apiKey := "k", speechClientOk := true,
                     storageClientOk := true,
                     listing := [ListEntry.found "status/a.wav.json"] } =
      [HarvestStep.wgAdd, HarvestStep.spawnWorker "status/a.wav.json"] := by
  constructor
  · have h : ∀ l : List ListEntry, (harvestLoop l).count HarvestStep.wgWait = 0 := by
      intro l
      induction l with
      | nil => rfl
      | cons e rest ih => cases e <;> simp [harvestLoop, List.count_cons, ih]
    intro env
    unfold ProcessResults
    split
    · rfl
    · split
      · rfl
      · split
        · rfl
        · exact h _
  · rfl

end STT

namespace STT

/-- Two strings with the same character data are equal. -/
theorem string_eq_of_data {a b : String} (h : a.data = b.data) : a = b := by
  cases a
  cases b
  exact congrArg String.mk h

/-- A string with non-empty character data is not the empty string. -/
theorem string_ne_empty_of_data {s : String} (h : s.data ≠ []) : s ≠ "" := by
  intro hc
  exact h (by rw [hc])

/-- `wordsStr` distributes over list append. -/
theorem wordsStr_append (l1 l2 : List WordInfo) :
    wordsStr (l1 ++ l2) = wordsStr l1 ++ wordsStr l2 := by
  induction l1 with
  | nil => rw [List.nil_append, wordsStr, String.empty_append]
  | cons w ws ih =>
    simp only [List.cons_append, List.append_eq, wordsStr, ih, String.append_assoc]

/-- The line buffer of the empty group is just the seed of `w0`. -/
theorem ptLineStr_nil (ts : Bool) (fps : Int) (w0 : WordInfo) :
    ptLineStr ts fps w0 [] = ptSeedStr ts fps w0 := by
  rw [ptLineStr, wordsStr, String.append_empty]
  rfl

/-- The line buffer of the singleton group `[w]`. -/
theorem ptLineStr_single (ts : Bool) (fps : Int) (w0 w : WordInfo) :
    ptLineStr ts fps w0 [w] = ptSeedStr ts fps w ++ " " ++ w.word := by
  rw [ptLineStr, wordsStr, wordsStr, String.append_empty, String.append_assoc]
  rfl

/-- Appending one word to a non-empty group appends `" " + word` to its
line buffer. -/
theorem ptLineStr_concat (ts : Bool) (fps : Int) (w0 : WordInfo)
    {cur : List WordInfo} (w : WordInfo) (h : cur ≠ []) :
    ptLineStr ts fps w0 (cur ++ [w]) = ptLineStr ts fps w0 cur ++ " " ++ w.word := by
  cases cur with
  | nil => exact absurd rfl h
  | cons x xs =>
    simp only [ptLineStr, wordsStr_append, wordsStr, String.append_empty,
               String.append_assoc, List.cons_append, List.append_eq, List.headD]

/-- The line buffer of a non-empty group is not empty. -/
theorem ptLineStr_ne_empty (ts : Bool) (fps : Int) (w0 : WordInfo)
    {cur : List WordInfo} (h : cur ≠ []) :
    ptLineStr ts fps w0 cur ≠ "" := by
  cases cur with
  | nil => exact absurd rfl h
  | cons x xs =>
    apply string_ne_empty_of_data
    rw [ptLineStr, wordsStr, String.data_append, String.data_append]
    simp

/-- Rendering distributes over appending one group. -/
theorem ptRenderLines_concat (ts : Bool) (fps : Int) (w0 : WordInfo)
    (gs : List (List WordInfo)) (g : List WordInfo) :
    ptRenderLines ts fps w0 (gs ++ [g]) =
      ptRenderLines ts fps w0 gs ++ ptRenderLine ts fps w0 g ++ "\n" := by
  induction gs with
  | nil =>
    simp only [List.nil_append, ptRenderLines, String.append_empty, String.empty_append]
  | cons g1 gsr ih =>
    simp only [List.cons_append, List.append_eq, ptRenderLines, ih, String.append_assoc]

/-- `ptRenderLines` is the newline join of the rendered lines. -/
theorem ptRenderLines_eq_joinLines (ts : Bool) (fps : Int) (w0 : WordInfo)
    (gs : List (List WordInfo)) :
    ptRenderLines ts fps w0 gs = joinLines (gs.map (ptRenderLine ts fps w0)) := by
  induction gs with
  | nil => rfl
  | cons g gsr ih => rw [ptRenderLines, ih, List.map_cons, joinLines]

end STT

namespace STT

/-- When `fmtOk fps` holds the formatter cannot panic and returns the
total value. -/
theorem fmtDuration_of_fmtOk (ns fps : Int) (h : fmtOk fps) :
    fmtDuration ns fps = some (fmtDurationTotal ns fps) := by
  obtain ⟨h1, h2⟩ := h
  have h2' : Int.tdiv 1000 (if 1001 < fps then DefaultFPS else fps) ≠ 0 := by
    simpa [h1] using h2
  unfold fmtDurationTotal fmtDuration durationToFrameNumber
  simp [h1, h2']

/-- When `fmtOk fps` holds the line seed is the total seed string. -/
theorem ptSeed_of_fmtOk (ts : Bool) (fps : Int) (w : WordInfo) (h : fmtOk fps) :
    ptSeed ts fps w = some (ptSeedStr ts fps w) := by
  cases ts <;> simp [ptSeed, ptSeedStr, fmtDuration_of_fmtOk _ _ h]

/-- When the formatter cannot panic, the word loop is total and computes
its pure counterpart. -/
theorem ptWords_eq_pure (ts : Bool) (fps : Int) (h : fmtOk fps) :
    ∀ (ws : List WordInfo) (acc : String × String),
      ptWords ts fps ws acc = some (ptWordsP ts fps ws acc) := by
  intro ws
  induction ws with
  | nil => intro acc; rfl
  | cons w wsr ih =>
    intro acc
    obtain ⟨lines, line⟩ := acc
    by_cases hc : goLen line > CharsPerLine <;>
      simp [ptWords, ptWordsP, hc, ptSeed_of_fmtOk _ _ _ h, ih]

/-- The pure word loop over an appended word list. -/
theorem ptWordsP_append (ts : Bool) (fps : Int) (l1 l2 : List WordInfo) :
    ∀ acc, ptWordsP ts fps (l1 ++ l2) acc = ptWordsP ts fps l2 (ptWordsP ts fps l1 acc) := by
  induction l1 with
  | nil => intro acc; rfl
  | cons w ws ih =>
    intro acc
    obtain ⟨lines, line⟩ := acc
    simp only [List.cons_append, List.append_eq, ptWordsP, ih]

/-- When every result has a first alternative (and the formatter cannot
panic), the result loop is the pure word loop over all words. -/
theorem ptResults_eq_pure (ts : Bool) (fps : Int) (h : fmtOk fps) :
    ∀ (rs : List SpeechRecognitionResult) (acc : String × String),
      (∀ r ∈ rs, r.alternatives ≠ []) →
      ptResults ts fps rs acc = some (ptWordsP ts fps (allWords rs) acc) := by
  intro rs
  induction rs with
  | nil => intro acc _; rfl
  | cons r rsr ih =>
    intro acc hAlt
    cases halt : r.alternatives with
    | nil => exact absurd halt (hAlt r (by simp))
    | cons a as =>
      have h1 : r.alternatives.head? = some a := by rw [halt]; rfl
      have h2 : firstAltWords r = a.words := by unfold firstAltWords; rw [halt]
      have h3 : ∀ x ∈ rsr, x.alternatives ≠ [] := fun x hx => hAlt x (by simp [hx])
      simp [ptResults, h1, ptWords_eq_pure ts fps h, ih _ h3, allWords, h2,
            ptWordsP_append]

/-- The cue word loop over an appended word list. -/
theorem srtWords_append (l1 l2 : List WordInfo) :
    ∀ acc, srtWords (l1 ++ l2) acc = srtWords l2 (srtWords l1 acc) := by
  induction l1 with
  | nil => intro acc; rfl
  | cons w ws ih =>
    intro acc
    simp only [List.cons_append, List.append_eq, srtWords, ih]

/-- When every result has a first alternative, the cue result loop is the
cue word loop over all words. -/
theorem srtResults_eq_pure :
    ∀ (rs : List SpeechRecognitionResult) (acc : SrtAcc),
      (∀ r ∈ rs, r.alternatives ≠ []) →
      srtResults rs acc = some (srtWords (allWords rs) acc) := by
  intro rs
  induction rs with
  | nil => intro acc _; rfl
  | cons r rsr ih =>
    intro acc hAlt
    cases halt : r.alternatives with
    | nil => exact absurd halt (hAlt r (by simp))
    | cons a as =>
      have h1 : r.alternatives.head? = some a := by rw [halt]; rfl
      have h2 : firstAltWords r = a.words := by unfold firstAltWords; rw [halt]
      have h3 : ∀ x ∈ rsr, x.alternatives ≠ [] := fun x hx => hAlt x (by simp [hx])
      simp [srtResults, h1, ih _ h3, allWords, h2, srtWords_append]

end STT

namespace STT

/-- Simulation of the pure word loop by the group fold: starting from a
rendered prefix and a non-empty current group, the loop's string state
stays the rendering of the group state. -/
theorem ptWordsP_sim (ts : Bool) (fps : Int) (w0 : WordInfo) :
    ∀ (ws : List WordInfo) (gs : List (List WordInfo)) (cur : List WordInfo),
      cur ≠ [] →
      ptWordsP ts fps ws (ptRenderLines ts fps w0 gs, ptLineStr ts fps w0 cur) =
        (ptRenderLines ts fps w0 (ptGroupWords ts fps w0 ws (gs, cur)).1,
         ptLineStr ts fps w0 (ptGroupWords ts fps w0 ws (gs, cur)).2) := by
  intro ws
  induction ws with
  | nil => intro gs cur _; rfl
  | cons w wsr ih =>
    intro gs cur h
    by_cases hc : goLen (ptLineStr ts fps w0 cur) > CharsPerLine
    · have e1 : ptWordsP ts fps (w :: wsr)
            (ptRenderLines ts fps w0 gs, ptLineStr ts fps w0 cur) =
          ptWordsP ts fps wsr
            (ptRenderLines ts fps w0 gs ++ trimSpace (ptLineStr ts fps w0 cur) ++ "\n",
             ptSeedStr ts fps w ++ " " ++ w.word) := by
        simp only [ptWordsP, if_pos hc]
      have e2 : ptRenderLines ts fps w0 gs ++ trimSpace (ptLineStr ts fps w0 cur) ++ "\n" =
          ptRenderLines ts fps w0 (gs ++ [cur]) := by
        rw [ptRenderLines_concat]; rfl
      have e3 : ptSeedStr ts fps w ++ " " ++ w.word = ptLineStr ts fps w0 [w] :=
        (ptLineStr_single ts fps w0 w).symm
      have egroup : ptGroupWords ts fps w0 (w :: wsr) (gs, cur) =
          ptGroupWords ts fps w0 wsr (gs ++ [cur], [w]) := by
        simp only [ptGroupWords, if_pos hc]
      rw [e1, e2, e3, egroup]
      exact ih (gs ++ [cur]) [w] (by simp)
    · have e1 : ptWordsP ts fps (w :: wsr)
            (ptRenderLines ts fps w0 gs, ptLineStr ts fps w0 cur) =
          ptWordsP ts fps wsr
            (ptRenderLines ts fps w0 gs, ptLineStr ts fps w0 cur ++ " " ++ w.word) := by
        simp only [ptWordsP, if_neg hc]
      have e2 : ptLineStr ts fps w0 cur ++ " " ++ w.word = ptLineStr ts fps w0 (cur ++ [w]) :=
        (ptLineStr_concat ts fps w0 w h).symm
      have egroup : ptGroupWords ts fps w0 (w :: wsr) (gs, cur) =
          ptGroupWords ts fps w0 wsr (gs, cur ++ [w]) := by
        simp only [ptGroupWords, if_neg hc]
      rw [e1, e2, egroup]
      exact ih gs (cur ++ [w]) (by simp)

/-- The group fold loses no word: flattened groups plus the current group
recover the processed words. -/
theorem ptGroupWords_flatten (ts : Bool) (fps : Int) (w0 : WordInfo) :
    ∀ (ws : List WordInfo) (gs : List (List WordInfo)) (cur : List WordInfo),
      (ptGroupWords ts fps w0 ws (gs, cur)).1.flatten ++
          (ptGroupWords ts fps w0 ws (gs, cur)).2 =
        gs.flatten ++ cur ++ ws := by
  intro ws
  induction ws with
  | nil => intro gs cur; simp [ptGroupWords]
  | cons w wsr ih =>
    intro gs cur
    by_cases hc : goLen (ptLineStr ts fps w0 cur) > CharsPerLine <;>
      simp only [ptGroupWords, hc, if_pos, if_neg, not_false_iff, ih] <;>
      simp [List.flatten_append, List.append_assoc]

/-- The current group of the group fold stays non-empty. -/
theorem ptGroupWords_cur_ne (ts : Bool) (fps : Int) (w0 : WordInfo) :
    ∀ (ws : List WordInfo) (gs : List (List WordInfo)) (cur : List WordInfo),
      cur ≠ [] → (ptGroupWords ts fps w0 ws (gs, cur)).2 ≠ [] := by
  intro ws
  induction ws with
  | nil => intro gs cur h; exact h
  | cons w wsr ih =>
    intro gs cur h
    by_cases hc : goLen (ptLineStr ts fps w0 cur) > CharsPerLine
    · simp only [ptGroupWords, if_pos hc]
      exact ih _ [w] (by simp)
    · simp only [ptGroupWords, if_neg hc]
      exact ih _ (cur ++ [w]) (by simp)

/-- Simulation of the cue word loop by the cue group fold. -/
theorem srtWords_sim (w0 : WordInfo) :
    ∀ (ws : List WordInfo) (gs : List (List WordInfo)) (cur : List WordInfo),
      cur ≠ [] →
      srtWords ws
          ⟨gs.map (srtCueOf w0), wordsStr cur, cur.headD w0, some (cur.getLastD w0)⟩ =
        ⟨(srtGroupWords ws (gs, cur)).1.map (srtCueOf w0),
         wordsStr (srtGroupWords ws (gs, cur)).2,
         (srtGroupWords ws (gs, cur)).2.headD w0,
         some ((srtGroupWords ws (gs, cur)).2.getLastD w0)⟩ := by
  intro ws
  induction ws with
  | nil => intro gs cur _; rfl
  | cons w wsr ih =>
    intro gs cur h
    by_cases hc : goLen (wordsStr cur) > CharsPerLine
    · have e1 : srtWords (w :: wsr)
            ⟨gs.map (srtCueOf w0), wordsStr cur, cur.headD w0, some (cur.getLastD w0)⟩ =
          srtWords wsr
            ⟨gs.map (srtCueOf w0) ++
               [stringToSubItem (wordsStr cur) (cur.headD w0).startNs
                  (lastEndNs (some (cur.getLastD w0)))],
             "" ++ " " ++ w.word, w, some w⟩ := by
        simp only [srtWords, if_pos hc]
      have e2 : gs.map (srtCueOf w0) ++
            [stringToSubItem (wordsStr cur) (cur.headD w0).startNs
               (lastEndNs (some (cur.getLastD w0)))] =
          (gs ++ [cur]).map (srtCueOf w0) := by
        rw [List.map_append]; rfl
      have e3 : "" ++ " " ++ w.word = wordsStr [w] := by
        rw [String.empty_append, wordsStr, wordsStr, String.append_empty]
      have egroup : srtGroupWords (w :: wsr) (gs, cur) =
          srtGroupWords wsr (gs ++ [cur], [w]) := by
        simp only [srtGroupWords, if_pos hc]
      rw [e1, e2, e3, egroup]
      have := ih (gs ++ [cur]) [w] (by simp)
      simpa using this
    · have e1 : srtWords (w :: wsr)
            ⟨gs.map (srtCueOf w0), wordsStr cur, cur.headD w0, some (cur.getLastD w0)⟩ =
          srtWords wsr
            ⟨gs.map (srtCueOf w0), wordsStr cur ++ " " ++ w.word, cur.headD w0, some w⟩ := by
        simp only [srtWords, if_neg hc]
      have e2 : wordsStr cur ++ " " ++ w.word = wordsStr (cur ++ [w]) := by
        rw [wordsStr_append, wordsStr, wordsStr, String.append_empty, String.append_assoc]
      have e3 : cur.headD w0 = (cur ++ [w]).headD w0 := by
        cases cur with
        | nil => exact absurd rfl h
        | cons x xs => rfl
      have egroup : srtGroupWords (w :: wsr) (gs, cur) =
          srtGroupWords wsr (gs, cur ++ [w]) := by
        simp only [srtGroupWords, if_neg hc]
      have hrec : (⟨gs.map (srtCueOf w0), wordsStr cur ++ " " ++ w.word,
            cur.headD w0, some w⟩ : SrtAcc) =
          ⟨gs.map (srtCueOf w0), wordsStr (cur ++ [w]), (cur ++ [w]).headD w0,
           some ((cur ++ [w]).getLastD w0)⟩ := by
        rw [e2, e3, List.getLastD_concat]
      rw [e1, egroup, hrec]
      exact ih gs (cur ++ [w]) (by simp)

/-- The cue group fold loses no word. -/
theorem srtGroupWords_flatten :
    ∀ (ws : List WordInfo) (gs : List (List WordInfo)) (cur : List WordInfo),
      (srtGroupWords ws (gs, cur)).1.flatten ++ (srtGroupWords ws (gs, cur)).2 =
        gs.flatten ++ cur ++ ws := by
  intro ws
  induction ws with
  | nil => intro gs cur; simp [srtGroupWords]
  | cons w wsr ih =>
    intro gs cur
    by_cases hc : goLen (wordsStr cur) > CharsPerLine <;>
      simp only [srtGroupWords, hc, if_pos, if_neg, not_false_iff, ih] <;>
      simp [List.flatten_append, List.append_assoc]

/-- The current cue group stays non-empty. -/
theorem srtGroupWords_cur_ne :
    ∀ (ws : List WordInfo) (gs : List (List WordInfo)) (cur : List WordInfo),
      cur ≠ [] → (srtGroupWords ws (gs, cur)).2 ≠ [] := by
  intro ws
  induction ws with
  | nil => intro gs cur h; exact h
  | cons w wsr ih =>
    intro gs cur h
    by_cases hc : goLen (wordsStr cur) > CharsPerLine
    · simp only [srtGroupWords, if_pos hc]
      exact ih _ [w] (by simp)
    · simp only [srtGroupWords, if_neg hc]
      exact ih _ (cur ++ [w]) (by simp)

end STT

namespace STT

/-- Master rendering lemma for the plain-text reflow: when every result
has a first alternative, the first result contributes a word, and the
formatter cannot panic, the output is exactly the newline join of the
rendered greedy line groups. -/
theorem plainText_render (trans : List SpeechRecognitionResult) (fps : Int) (ts : Bool)
    (hAlt : ∀ r ∈ trans, r.alternatives ≠ [])
    (hne : trans ≠ [])
    (hFirst : firstAltWords (trans.headD default) ≠ [])
    (hfps : fmtOk fps) :
    transcriptionToPlainText trans fps ts = some (joinLines (ptLines ts fps trans)) := by
  cases trans with
  | nil => exact absurd rfl hne
  | cons t0 rest =>
    cases halt : t0.alternatives with
    | nil => exact absurd halt (hAlt t0 (by simp))
    | cons a as =>
      have hfw : firstAltWords t0 = a.words := by unfold firstAltWords; rw [halt]
      have hw0 : a.words ≠ [] := by simpa [List.headD, hfw] using hFirst
      cases hwords : a.words with
      | nil => exact absurd hwords hw0
      | cons w0 w0s =>
        have h1 : t0.alternatives.head? = some a := by rw [halt]; rfl
        have h2 : a.words.head? = some w0 := by rw [hwords]; rfl
        have hall : allWords (t0 :: rest) = w0 :: (w0s ++ allWords rest) := by
          simp [allWords, hfw, hwords]
        have hres : ptResults ts fps (t0 :: rest) ("", ptSeedStr ts fps w0) =
            some (ptWordsP ts fps (w0 :: (w0s ++ allWords rest))
              ("", ptSeedStr ts fps w0)) := by
          rw [ptResults_eq_pure ts fps hfps _ _ hAlt, hall]
        have hstate0 : (("" : String), ptSeedStr ts fps w0) =
            (ptRenderLines ts fps w0 [], ptLineStr ts fps w0 []) := by
          rw [ptLineStr_nil]; rfl
        -- one manual step for the first word, then the simulation lemma
        have hmain :
            ptWordsP ts fps (w0 :: (w0s ++ allWords rest)) ("", ptSeedStr ts fps w0) =
              (ptRenderLines ts fps w0
                 (ptGroupWords ts fps w0 (w0 :: (w0s ++ allWords rest)) ([], [])).1,
               ptLineStr ts fps w0
                 (ptGroupWords ts fps w0 (w0 :: (w0s ++ allWords rest)) ([], [])).2) := by
          by_cases hc0 : goLen (ptLineStr ts fps w0 []) > CharsPerLine
          · have e1 : ptWordsP ts fps (w0 :: (w0s ++ allWords rest))
                  ("", ptSeedStr ts fps w0) =
                ptWordsP ts fps (w0s ++ allWords rest)
                  (ptRenderLines ts fps w0 [[]], ptLineStr ts fps w0 [w0]) := by
              rw [hstate0]
              simp only [ptWordsP, if_pos hc0]
              congr 1
              refine Prod.ext ?_ ?_
              · show ptRenderLines ts fps w0 [] ++ trimSpace (ptLineStr ts fps w0 []) ++
                    "\n" = ptRenderLines ts fps w0 [[]]
                rw [show ([[]] : List (List WordInfo)) = [] ++ [[]] from rfl,
                    ptRenderLines_concat]
                rfl
              · show ptSeedStr ts fps w0 ++ " " ++ w0.word = ptLineStr ts fps w0 [w0]
                rw [ptLineStr_single]
            have e2 : ptGroupWords ts fps w0 (w0 :: (w0s ++ allWords rest)) ([], []) =
                ptGroupWords ts fps w0 (w0s ++ allWords rest) ([[]], [w0]) := by
              simp only [ptGroupWords, if_pos hc0, List.nil_append]
            rw [e1, e2, ptWordsP_sim ts fps w0 _ [[]] [w0] (by simp)]
          · have e1 : ptWordsP ts fps (w0 :: (w0s ++ allWords rest))
                  ("", ptSeedStr ts fps w0) =
                ptWordsP ts fps (w0s ++ allWords rest)
                  (ptRenderLines ts fps w0 [], ptLineStr ts fps w0 [w0]) := by
              rw [hstate0]
              simp only [ptWordsP, if_neg hc0]
              congr 1
              refine Prod.ext ?_ ?_
              · rfl
              · show ptLineStr ts fps w0 [] ++ " " ++ w0.word = ptLineStr ts fps w0 [w0]
                rw [ptLineStr_nil, ptLineStr_single]
            have e2 : ptGroupWords ts fps w0 (w0 :: (w0s ++ allWords rest)) ([], []) =
                ptGroupWords ts fps w0 (w0s ++ allWords rest) ([], [w0]) := by
              simp only [ptGroupWords, if_neg hc0, List.nil_append]
            rw [e1, e2, ptWordsP_sim ts fps w0 _ [] [w0] (by simp)]
        have hm1 : (ptWordsP ts fps (w0 :: (w0s ++ allWords rest))
              ("", ptSeedStr ts fps w0)).1 =
            ptRenderLines ts fps w0
              (ptGroupWords ts fps w0 (w0 :: (w0s ++ allWords rest)) ([], [])).1 := by
          rw [hmain]
        have hm2 : (ptWordsP ts fps (w0 :: (w0s ++ allWords rest))
              ("", ptSeedStr ts fps w0)).2 =
            ptLineStr ts fps w0
              (ptGroupWords ts fps w0 (w0 :: (w0s ++ allWords rest)) ([], [])).2 := by
          rw [hmain]
        have hcur : (ptGroupWords ts fps w0 (w0 :: (w0s ++ allWords rest)) ([], [])).2 ≠ [] := by
          by_cases hc0 : goLen (ptLineStr ts fps w0 []) > CharsPerLine
          · simp only [ptGroupWords, if_pos hc0, List.nil_append]
            exact ptGroupWords_cur_ne ts fps w0 _ [[]] [w0] (by simp)
          · simp only [ptGroupWords, if_neg hc0, List.nil_append]
            exact ptGroupWords_cur_ne ts fps w0 _ [] [w0] (by simp)
        have hlinene :
            ptLineStr ts fps w0
              (ptGroupWords ts fps w0 (w0 :: (w0s ++ allWords rest)) ([], [])).2 ≠ "" :=
          ptLineStr_ne_empty ts fps w0 hcur
        have hrl : trimSpace (ptLineStr ts fps w0
              (ptGroupWords ts fps w0 (w0 :: (w0s ++ allWords rest)) ([], [])).2) =
            ptRenderLine ts fps w0
              (ptGroupWords ts fps w0 (w0 :: (w0s ++ allWords rest)) ([], [])).2 := rfl
        have hgroups : ptGroups ts fps (t0 :: rest) =
            (ptGroupWords ts fps w0 (w0 :: (w0s ++ allWords rest)) ([], [])).1 ++
              [(ptGroupWords ts fps w0 (w0 :: (w0s ++ allWords rest)) ([], [])).2] := by
          unfold ptGroups
          rw [hall]
          rfl
        have hlines : ptLines ts fps (t0 :: rest) =
            (ptGroups ts fps (t0 :: rest)).map (ptRenderLine ts fps w0) := by
          unfold ptLines
          rw [hall]
          rfl
        -- assemble
        cases ts with
        | false =>
          have hres0 : ptResults false fps (t0 :: rest) ("", "") =
              some (ptWordsP false fps (w0 :: (w0s ++ allWords rest)) ("", "")) := hres
          have hm1f : (ptWordsP false fps (w0 :: (w0s ++ allWords rest)) ("", "")).1 =
              ptRenderLines false fps w0
                (ptGroupWords false fps w0 (w0 :: (w0s ++ allWords rest)) ([], [])).1 := hm1
          have hm2f : (ptWordsP false fps (w0 :: (w0s ++ allWords rest)) ("", "")).2 =
              ptLineStr false fps w0
                (ptGroupWords false fps w0 (w0 :: (w0s ++ allWords rest)) ([], [])).2 := hm2
          simp only [transcriptionToPlainText, Bool.false_eq_true, if_false,
                     Option.bind_eq_bind, Option.pure_def, Option.some_bind,
                     hres0, hm1f, hm2f]
          rw [if_pos hlinene, hrl, ← ptRenderLines_concat, hlines, hgroups,
              ptRenderLines_eq_joinLines]
        | true =>
          have hres1 : ptResults true fps (t0 :: rest)
                ("", fmtDurationTotal w0.startNs fps ++ ":") =
              some (ptWordsP true fps (w0 :: (w0s ++ allWords rest))
                ("", fmtDurationTotal w0.startNs fps ++ ":")) := hres
          have hm1t : (ptWordsP true fps (w0 :: (w0s ++ allWords rest))
                ("", fmtDurationTotal w0.startNs fps ++ ":")).1 =
              ptRenderLines true fps w0
                (ptGroupWords true fps w0 (w0 :: (w0s ++ allWords rest)) ([], [])).1 := hm1
          have hm2t : (ptWordsP true fps (w0 :: (w0s ++ allWords rest))
                ("", fmtDurationTotal w0.startNs fps ++ ":")).2 =
              ptLineStr true fps w0
                (ptGroupWords true fps w0 (w0 :: (w0s ++ allWords rest)) ([], [])).2 := hm2
          simp only [transcriptionToPlainText, if_true,
                     fmtDuration_of_fmtOk _ _ hfps, h1, h2,
                     Option.bind_eq_bind, Option.pure_def, Option.some_bind,
                     hres1, hm1t, hm2t]
          rw [if_pos hlinene, hrl, ← ptRenderLines_concat, hlines, hgroups,
              ptRenderLines_eq_joinLines]

end STT

namespace STT

/-- Master rendering lemma for the cue list: when every result has a first
alternative and the first result contributes a word, the emitted cues are
exactly the renderings of the greedy cue groups. -/
theorem srt_render (trans : List SpeechRecognitionResult)
    (hAlt : ∀ r ∈ trans, r.alternatives ≠ [])
    (hne : trans ≠ [])
    (hFirst : firstAltWords (trans.headD default) ≠ []) :
    transcriptionToSrt trans =
      some ((srtGroups trans).map (srtCueOf ((allWords trans).headD default))) := by
  cases trans with
  | nil => exact absurd rfl hne
  | cons t0 rest =>
    cases halt : t0.alternatives with
    | nil => exact absurd halt (hAlt t0 (by simp))
    | cons a as =>
      have hfw : firstAltWords t0 = a.words := by unfold firstAltWords; rw [halt]
      have hw0 : a.words ≠ [] := by simpa [List.headD, hfw] using hFirst
      cases hwords : a.words with
      | nil => exact absurd hwords hw0
      | cons w0 w0s =>
        have h1 : t0.alternatives.head? = some a := by rw [halt]; rfl
        have h2 : a.words.head? = some w0 := by rw [hwords]; rfl
        have hall : allWords (t0 :: rest) = w0 :: (w0s ++ allWords rest) := by
          simp [allWords, hfw, hwords]
        have hres : srtResults (t0 :: rest) ⟨[], "", w0, none⟩ =
            some (srtWords (w0 :: (w0s ++ allWords rest)) ⟨[], "", w0, none⟩) := by
          rw [srtResults_eq_pure _ _ hAlt, hall]
        have hc0 : ¬goLen "" > CharsPerLine := by decide
        have hmain : srtWords (w0 :: (w0s ++ allWords rest)) ⟨[], "", w0, none⟩ =
            ⟨(srtGroupWords (w0 :: (w0s ++ allWords rest)) ([], [])).1.map (srtCueOf w0),
             wordsStr (srtGroupWords (w0 :: (w0s ++ allWords rest)) ([], [])).2,
             (srtGroupWords (w0 :: (w0s ++ allWords rest)) ([], [])).2.headD w0,
             some ((srtGroupWords (w0 :: (w0s ++ allWords rest)) ([], [])).2.getLastD w0)⟩ := by
          have e1 : srtWords (w0 :: (w0s ++ allWords rest)) ⟨[], "", w0, none⟩ =
              srtWords (w0s ++ allWords rest) ⟨[], "" ++ " " ++ w0.word, w0, some w0⟩ := by
            simp only [srtWords, if_neg hc0]
          have e2 : (⟨[], "" ++ " " ++ w0.word, w0, some w0⟩ : SrtAcc) =
              ⟨([] : List (List WordInfo)).map (srtCueOf w0), wordsStr [w0],
               ([w0] : List WordInfo).headD w0, some (([w0] : List WordInfo).getLastD w0)⟩ := by
            rw [show "" ++ " " ++ w0.word = wordsStr [w0] from by
              rw [String.empty_append, wordsStr, wordsStr, String.append_empty]]
            rfl
          have e3 : srtGroupWords (w0 :: (w0s ++ allWords rest)) ([], []) =
              srtGroupWords (w0s ++ allWords rest) ([], [w0]) := by
            simp only [srtGroupWords]
            rw [if_neg (show ¬goLen (wordsStr []) > CharsPerLine from hc0)]
            rfl
          rw [e1, e2, e3]
          exact srtWords_sim w0 (w0s ++ allWords rest) [] [w0] (by simp)
        have hgroups : srtGroups (t0 :: rest) =
            (srtGroupWords (w0 :: (w0s ++ allWords rest)) ([], [])).1 ++
              [(srtGroupWords (w0 :: (w0s ++ allWords rest)) ([], [])).2] := by
          unfold srtGroups
          rw [hall]
        have hw0top : (allWords (t0 :: rest)).headD default = w0 := by
          rw [hall]; rfl
        simp only [transcriptionToSrt, h1, h2, Option.bind_eq_bind, Option.pure_def,
                   Option.some_bind, hres, hmain]
        rw [hw0top, hgroups, List.map_append]
        rfl

end STT

namespace STT

/-- The plain-text line groups partition the word stream: flattening them
recovers every word in order. -/
theorem ptGroups_flatten (ts : Bool) (fps : Int) (trans : List SpeechRecognitionResult) :
    (ptGroups ts fps trans).flatten = allWords trans := by
  have h := ptGroupWords_flatten ts fps ((allWords trans).headD default)
    (allWords trans) [] []
  simp only [List.flatten_nil, List.nil_append] at h
  unfold ptGroups
  simp only [List.flatten_append, List.flatten_cons, List.flatten_nil, List.append_nil]
  exact h

/-- The cue groups partition the word stream. -/
theorem srtGroups_flatten_all (trans : List SpeechRecognitionResult) :
    (srtGroups trans).flatten = allWords trans := by
  have h := srtGroupWords_flatten (allWords trans) [] []
  simp only [List.flatten_nil, List.nil_append] at h
  unfold srtGroups
  simp only [List.flatten_append, List.flatten_cons, List.flatten_nil, List.append_nil]
  exact h

/-- Decomposition of the plain-text groups into flushed groups plus the
final group, given the head of the word stream. -/
theorem ptGroups_decomp (ts : Bool) (fps : Int) (trans : List SpeechRecognitionResult)
    (w0 : WordInfo) (tail : List WordInfo) (hall : allWords trans = w0 :: tail) :
    ptGroups ts fps trans =
      (ptGroupWords ts fps w0 (w0 :: tail) ([], [])).1 ++
        [(ptGroupWords ts fps w0 (w0 :: tail) ([], [])).2] := by
  unfold ptGroups
  rw [hall]
  rfl

/-- The final plain-text group is non-empty whenever a word exists. -/
theorem ptGroups_final_ne (ts : Bool) (fps : Int) (w0 : WordInfo) (tail : List WordInfo) :
    (ptGroupWords ts fps w0 (w0 :: tail) ([], [])).2 ≠ [] := by
  by_cases hc0 : goLen (ptLineStr ts fps w0 []) > CharsPerLine
  · simp only [ptGroupWords, if_pos hc0, List.nil_append]
    exact ptGroupWords_cur_ne ts fps w0 tail [[]] [w0] (by simp)
  · simp only [ptGroupWords, if_neg hc0, List.nil_append]
    exact ptGroupWords_cur_ne ts fps w0 tail [] [w0] (by simp)

/-- The final cue group is non-empty whenever a word exists. -/
theorem srtGroups_final_ne (w0 : WordInfo) (tail : List WordInfo) :
    (srtGroupWords (w0 :: tail) ([], [])).2 ≠ [] := by
  have hc0 : ¬goLen (wordsStr []) > CharsPerLine := by decide
  simp only [srtGroupWords, if_neg hc0, List.nil_append]
  exact srtGroupWords_cur_ne tail [] [w0] (by simp)

/-- A string holding at least one non-space character does not trim to the
empty string. -/
theorem trimSpace_ne_empty {s : String}
    (h : ∃ c ∈ s.data, isGoSpace c = false) : trimSpace s ≠ "" := by
  obtain ⟨c, hc, hcs⟩ := h
  apply string_ne_empty_of_data
  show ((s.data.dropWhile isGoSpace).reverse.dropWhile isGoSpace).reverse ≠ []
  intro hnil
  rw [List.reverse_eq_nil_iff, List.dropWhile_eq_nil_iff] at hnil
  have hcdrop : c ∈ s.data.dropWhile isGoSpace := by
    have hsplit := List.takeWhile_append_dropWhile (p := isGoSpace) (l := s.data)
    rcases List.mem_append.mp (hsplit ▸ hc) with htake | hdrop
    · exact absurd (List.mem_takeWhile_imp htake) (by rw [hcs]; intro hcon; cases hcon)
    · exact hdrop
  have := hnil c (List.mem_reverse.mpr hcdrop)
  rw [hcs] at this
  cases this

/-- A rendered plain-text line of a non-empty group of non-blank words is
not empty. -/
theorem ptRenderLine_ne_empty (ts : Bool) (fps : Int) (w0 : WordInfo)
    (g : List WordInfo) (hg : g ≠ [])
    (hTokg : ∀ w ∈ g, w.word ≠ "" ∧ ∀ c ∈ w.word.data, isGoSpace c = false) :
    ptRenderLine ts fps w0 g ≠ "" := by
  cases g with
  | nil => exact absurd rfl hg
  | cons x xs =>
    obtain ⟨hx1, hx2⟩ := hTokg x (by simp)
    cases hcd : x.word.data with
    | nil => exact absurd (string_eq_of_data (by rw [hcd])) hx1
    | cons c cs =>
      apply trimSpace_ne_empty
      refine ⟨c, ?_, hx2 c (by rw [hcd]; simp)⟩
      show c ∈ (ptLineStr ts fps w0 (x :: xs)).data
      unfold ptLineStr
      rw [String.data_append]
      apply List.mem_append_right
      simp only [wordsStr, String.data_append]
      refine List.mem_append_left _ (List.mem_append_right _ ?_)
      rw [hcd]
      simp

/-- A rendered cue text of a non-empty group of non-blank words is not
empty. -/
theorem srtCueOf_text_ne_empty (w0 : WordInfo) (g : List WordInfo) (hg : g ≠ [])
    (hTokg : ∀ w ∈ g, w.word ≠ "" ∧ ∀ c ∈ w.word.data, isGoSpace c = false) :
    (srtCueOf w0 g).text ≠ "" := by
  cases g with
  | nil => exact absurd rfl hg
  | cons x xs =>
    obtain ⟨hx1, hx2⟩ := hTokg x (by simp)
    cases hcd : x.word.data with
    | nil => exact absurd (string_eq_of_data (by rw [hcd])) hx1
    | cons c cs =>
      apply trimSpace_ne_empty
      refine ⟨c, ?_, hx2 c (by rw [hcd]; simp)⟩
      show c ∈ (wordsStr (x :: xs)).data
      simp only [wordsStr, String.data_append]
      refine List.mem_append_left _ (List.mem_append_right _ ?_)
      rw [hcd]
      simp

end STT

namespace STT

/-- Dropping zero-word results does not change the plain-text result loop:
a result whose first alternative has no words contributes an identity step. -/
theorem ptResults_filter (ts : Bool) (fps : Int) :
    ∀ rs : List SpeechRecognitionResult, (∀ r ∈ rs, r.alternatives ≠ []) →
      ∀ acc, ptResults ts fps (dropWordlessResults rs) acc = ptResults ts fps rs acc := by
  intro rs
  induction rs with
  | nil => intro _ acc; rfl
  | cons r rsr ih =>
    intro hAlt acc
    cases halt : r.alternatives with
    | nil => exact absurd halt (hAlt r (by simp))
    | cons a as =>
      have h1 : r.alternatives.head? = some a := by rw [halt]; rfl
      have hfw : firstAltWords r = a.words := by unfold firstAltWords; rw [halt]
      have ihh := ih (fun x hx => hAlt x (by simp [hx]))
      by_cases hw : a.words.isEmpty
      · have hwnil : a.words = [] := by simpa using hw
        have hfilter : dropWordlessResults (r :: rsr) = dropWordlessResults rsr := by
          unfold dropWordlessResults
          simp [List.filter_cons, hfw, hw]
        rw [hfilter, ihh]
        simp [ptResults, h1, hwnil, ptWords]
      · have hfilter : dropWordlessResults (r :: rsr) = r :: dropWordlessResults rsr := by
          unfold dropWordlessResults
          simp [List.filter_cons, hfw, hw]
        rw [hfilter]
        simp only [ptResults, h1, Option.some_bind, ihh]

/-- Dropping zero-word results does not change the cue result loop. -/
theorem srtResults_filter :
    ∀ rs : List SpeechRecognitionResult, (∀ r ∈ rs, r.alternatives ≠ []) →
      ∀ acc, srtResults (dropWordlessResults rs) acc = srtResults rs acc := by
  intro rs
  induction rs with
  | nil => intro _ acc; rfl
  | cons r rsr ih =>
    intro hAlt acc
    cases halt : r.alternatives with
    | nil => exact absurd halt (hAlt r (by simp))
    | cons a as =>
      have h1 : r.alternatives.head? = some a := by rw [halt]; rfl
      have hfw : firstAltWords r = a.words := by unfold firstAltWords; rw [halt]
      have ihh := ih (fun x hx => hAlt x (by simp [hx]))
      by_cases hw : a.words.isEmpty
      · have hwnil : a.words = [] := by simpa using hw
        have hfilter : dropWordlessResults (r :: rsr) = dropWordlessResults rsr := by
          unfold dropWordlessResults
          simp [List.filter_cons, hfw, hw]
        rw [hfilter, ihh]
        simp [srtResults, h1, hwnil, srtWords]
      · have hfilter : dropWordlessResults (r :: rsr) = r :: dropWordlessResults rsr := by
          unfold dropWordlessResults
          simp [List.filter_cons, hfw, hw]
        rw [hfilter]
        simp only [srtResults, h1, Option.some_bind, ihh]

/-- Dropping zero-word results does not change the emitted plain text
(provided the first result is not itself dropped). -/
theorem plainText_filter (trans : List SpeechRecognitionResult) (fps : Int) (ts : Bool)
    (hAlt : ∀ r ∈ trans, r.alternatives ≠ [])
    (hne : trans ≠ [])
    (hFirst : firstAltWords (trans.headD default) ≠ []) :
    transcriptionToPlainText (dropWordlessResults trans) fps ts =
      transcriptionToPlainText trans fps ts := by
  cases trans with
  | nil => exact absurd rfl hne
  | cons t0 rest =>
    have hkeep : ¬(firstAltWords t0).isEmpty = true := by
      simpa using (by simpa [List.headD] using hFirst : firstAltWords t0 ≠ [])
    have htop : dropWordlessResults (t0 :: rest) = t0 :: dropWordlessResults rest := by
      unfold dropWordlessResults
      simp [List.filter_cons, hkeep]
    have hAltr : ∀ r ∈ rest, r.alternatives ≠ [] := fun x hx => hAlt x (by simp [hx])
    have hres : ∀ acc, ptResults ts fps (t0 :: dropWordlessResults rest) acc =
        ptResults ts fps (t0 :: rest) acc := by
      intro acc
      simp only [ptResults, ptResults_filter ts fps rest hAltr]
    rw [htop]
    simp only [transcriptionToPlainText, hres]

/-- Dropping zero-word results does not change the emitted cue list
(provided the first result is not itself dropped). -/
theorem srt_filter (trans : List SpeechRecognitionResult)
    (hAlt : ∀ r ∈ trans, r.alternatives ≠ [])
    (hne : trans ≠ [])
    (hFirst : firstAltWords (trans.headD default) ≠ []) :
    transcriptionToSrt (dropWordlessResults trans) = transcriptionToSrt trans := by
  cases trans with
  | nil => exact absurd rfl hne
  | cons t0 rest =>
    have hkeep : ¬(firstAltWords t0).isEmpty = true := by
      simpa using (by simpa [List.headD] using hFirst : firstAltWords t0 ≠ [])
    have htop : dropWordlessResults (t0 :: rest) = t0 :: dropWordlessResults rest := by
      unfold dropWordlessResults
      simp [List.filter_cons, hkeep]
    have hAltr : ∀ r ∈ rest, r.alternatives ≠ [] := fun x hx => hAlt x (by simp [hx])
    have hres : ∀ acc, srtResults (t0 :: dropWordlessResults rest) acc =
        srtResults (t0 :: rest) acc := by
      intro acc
      simp only [srtResults, srtResults_filter rest hAltr]
    rw [htop]
    simp only [transcriptionToSrt, hres]

end STT

namespace STT

/-- Claim C7, counterexample to the claim as stated: `emptyFirstInput`
carries the non-empty word sequence ["hi"] (each result has a first
alternative), yet both converters panic — the first result's empty word
list is indexed as `Words[0]` — so no lines or cues at all are emitted and
no concatenation can reconstruct the sequence. -/
theorem reflow_crashes_on_empty_first_result :
    (allWords emptyFirstInput).map WordInfo.word = ["hi"] ∧
    (∀ r ∈ emptyFirstInput, r.alternatives ≠ []) ∧
    transcriptionToSrt emptyFirstInput = none ∧
    transcriptionToPlainText emptyFirstInput 25 true = none := by
  refine ⟨by decide, by decide, rfl, rfl⟩

/-- Claim C7 (as amended): for every transcription whose results each have
a first alternative, whose first result contributes at least one word, and
at an fps at which the timecode formatter cannot panic, the plain-text
output is exactly the rendering of the greedy word groups, those groups
flatten back to the original word sequence in order, and likewise the cue
list: the emitted lines and cue texts carry the original words in order. -/
theorem reflow_reconstructs_word_sequence (trans : List SpeechRecognitionResult)
    (fps : Int) (ts : Bool)
    (hAlt : ∀ r ∈ trans, r.alternatives ≠ [])
    (hne : trans ≠ [])
    (hFirst : firstAltWords (trans.headD default) ≠ [])
    (hfps : fmtOk fps) :
    (transcriptionToPlainText trans fps ts = some (joinLines (ptLines ts fps trans)) ∧
      (ptGroups ts fps trans).flatten = allWords trans) ∧
    (transcriptionToSrt trans =
        some ((srtGroups trans).map (srtCueOf ((allWords trans).headD default))) ∧
      (srtGroups trans).flatten = allWords trans) :=
  ⟨⟨plainText_render trans fps ts hAlt hne hFirst hfps, ptGroups_flatten ts fps trans⟩,
   srt_render trans hAlt hne hFirst, srtGroups_flatten_all trans⟩

/-- Witness for the amended C7 at `budgetInput`, fps 25, timestamps on. -/
theorem reflow_reconstructs_word_sequence_witness :
    ((∀ r ∈ budgetInput, r.alternatives ≠ []) ∧ budgetInput ≠ [] ∧
      firstAltWords (budgetInput.headD default) ≠ [] ∧ fmtOk 25) ∧
    (transcriptionToPlainText budgetInput 25 true =
        some (joinLines (ptLines true 25 budgetInput)) ∧
      (ptGroups true 25 budgetInput).flatten = allWords budgetInput) ∧
    (transcriptionToSrt budgetInput =
        some ((srtGroups budgetInput).map
          (srtCueOf ((allWords budgetInput).headD default))) ∧
      (srtGroups budgetInput).flatten = allWords budgetInput) :=
  ⟨⟨by decide, by decide, by decide, by decide⟩,
   reflow_reconstructs_word_sequence budgetInput 25 true (by decide) (by decide)
     (by decide) (by decide)⟩

/-- Claim C4, counterexample to the claim as stated: a zero-word result
that is the first result of a non-empty input (each result carrying a
first alternative) is not skipped: `transcriptionToSrt` and
`transcriptionToPlainText` with timestamps panic on `Words[0]`. -/
theorem zero_word_first_result_crashes :
    (∀ r ∈ emptyFirstInput, r.alternatives ≠ []) ∧
    transcriptionToSrt emptyFirstInput = none ∧
    transcriptionToPlainText emptyFirstInput 25 true = none ∧
    transcriptionToPlainText emptyFirstInput 25 false = some "hi\n" := by
  refine ⟨by decide, rfl, rfl, by decide⟩

/-- Claim C4 (as amended): when the zero-word result is not the first
result, it is skipped: dropping zero-word results leaves both outputs
unchanged, both functions return without panicking, and (for non-blank
word tokens) the final flush emits no empty trailing line or cue. -/
theorem zero_word_results_skipped (trans : List SpeechRecognitionResult)
    (fps : Int) (ts : Bool)
    (hAlt : ∀ r ∈ trans, r.alternatives ≠ [])
    (hne : trans ≠ [])
    (hFirst : firstAltWords (trans.headD default) ≠ [])
    (hfps : fmtOk fps)
    (hTok : ∀ w ∈ allWords trans, w.word ≠ "" ∧ ∀ c ∈ w.word.data, isGoSpace c = false) :
    (transcriptionToPlainText (dropWordlessResults trans) fps ts =
        transcriptionToPlainText trans fps ts ∧
     transcriptionToSrt (dropWordlessResults trans) = transcriptionToSrt trans) ∧
    (transcriptionToPlainText trans fps ts = some (joinLines (ptLines ts fps trans)) ∧
     transcriptionToSrt trans =
        some ((srtGroups trans).map (srtCueOf ((allWords trans).headD default)))) ∧
    ((ptLines ts fps trans).getLastD "" ≠ "" ∧
     (((srtGroups trans).map (srtCueOf ((allWords trans).headD default))).getLastD
        default).text ≠ "") := by
  have hwordsne : allWords trans ≠ [] := by
    cases trans with
    | nil => exact absurd rfl hne
    | cons t0 rest =>
      have : firstAltWords t0 ≠ [] := by simpa [List.headD] using hFirst
      cases hfw : firstAltWords t0 with
      | nil => exact absurd hfw this
      | cons x xs => simp [allWords, hfw]
  obtain ⟨w0, tail, hall⟩ := List.exists_cons_of_ne_nil hwordsne
  have hw0top : (allWords trans).headD default = w0 := by rw [hall]; rfl
  -- plain-text trailing line
  have hptdecomp := ptGroups_decomp ts fps trans w0 tail hall
  have hptlast : (ptLines ts fps trans).getLastD "" =
      ptRenderLine ts fps w0 (ptGroupWords ts fps w0 (w0 :: tail) ([], [])).2 := by
    unfold ptLines
    rw [hw0top, hptdecomp, List.map_append, List.map_cons, List.map_nil,
        List.getLastD_concat]
  have hptsub : ∀ w ∈ (ptGroupWords ts fps w0 (w0 :: tail) ([], [])).2,
      w ∈ allWords trans := by
    intro w hw
    have hfl := ptGroups_flatten ts fps trans
    rw [hptdecomp, List.flatten_append] at hfl
    rw [← hfl]
    exact List.mem_append_right _ (by simpa using hw)
  -- cue trailing text
  have hsrtdecomp : srtGroups trans =
      (srtGroupWords (w0 :: tail) ([], [])).1 ++
        [(srtGroupWords (w0 :: tail) ([], [])).2] := by
    unfold srtGroups
    rw [hall]
  have hsrtlast : (((srtGroups trans).map (srtCueOf ((allWords trans).headD default))).getLastD
        default) =
      srtCueOf w0 (srtGroupWords (w0 :: tail) ([], [])).2 := by
    rw [hw0top, hsrtdecomp, List.map_append, List.map_cons, List.map_nil,
        List.getLastD_concat]
  have hsrtsub : ∀ w ∈ (srtGroupWords (w0 :: tail) ([], [])).2,
      w ∈ allWords trans := by
    intro w hw
    have hfl := srtGroups_flatten_all trans
    rw [hsrtdecomp, List.flatten_append] at hfl
    rw [← hfl]
    exact List.mem_append_right _ (by simpa using hw)
  refine ⟨⟨plainText_filter trans fps ts hAlt hne hFirst,
           srt_filter trans hAlt hne hFirst⟩,
          ⟨plainText_render trans fps ts hAlt hne hFirst hfps,
           srt_render trans hAlt hne hFirst⟩,
          ?_, ?_⟩
  · rw [hptlast]
    exact ptRenderLine_ne_empty ts fps w0 _ (ptGroups_final_ne ts fps w0 tail)
      (fun w hw => hTok w (hptsub w hw))
  · rw [hsrtlast]
    exact srtCueOf_text_ne_empty w0 _ (srtGroups_final_ne w0 tail)
      (fun w hw => hTok w (hsrtsub w hw))

/-- Witness for the amended C4 at `budgetInput`, fps 25, timestamps on. -/
theorem zero_word_results_skipped_witness :
    ((∀ r ∈ budgetInput, r.alternatives ≠ []) ∧ budgetInput ≠ [] ∧
      firstAltWords (budgetInput.headD default) ≠ [] ∧ fmtOk 25 ∧
      (∀ w ∈ allWords budgetInput,
        w.word ≠ "" ∧ ∀ c ∈ w.word.data, isGoSpace c = false)) ∧
    (transcriptionToPlainText (dropWordlessResults budgetInput) 25 true =
        transcriptionToPlainText budgetInput 25 true ∧
     transcriptionToSrt (dropWordlessResults budgetInput) =
        transcriptionToSrt budgetInput) ∧
    (transcriptionToPlainText budgetInput 25 true =
        some (joinLines (ptLines true 25 budgetInput)) ∧
     transcriptionToSrt budgetInput =
        some ((srtGroups budgetInput).map
          (srtCueOf ((allWords budgetInput).headD default)))) ∧
    ((ptLines true 25 budgetInput).getLastD "" ≠ "" ∧
     (((srtGroups budgetInput).map
        (srtCueOf ((allWords budgetInput).headD default))).getLastD default).text ≠ "") :=
  ⟨⟨by decide, by decide, by decide, by decide, by decide⟩,
   zero_word_results_skipped budgetInput 25 true (by decide) (by decide) (by decide)
     (by decide) (by decide)⟩

end STT
